import Mathlib

/-!
Shallow embedding of the email pipeline in src/email_system.py.

Python strings are modelled as List Char.  Timestamps are opaque Nat
values; datetime.now() is modelled by an explicit clock argument.
Exceptions are modelled with Except String.
-/

/-- Python str.isspace characters relevant to str.strip (ASCII whitespace). -/
def pyIsSpace (c : Char) : Bool :=
  c = ' ' || c = '\t' || c = '\n' || c = '\r' || c = '\x0b' || c = '\x0c'

/-- Python str.lstrip with no argument. -/
def pyLstrip (l : List Char) : List Char := l.dropWhile pyIsSpace

/-- Python str.rstrip with no argument: drop whitespace from the tail. -/
def pyRstrip (l : List Char) : List Char := List.rdropWhile pyIsSpace l

/-- Python str.strip with no argument: drop whitespace at both ends. -/
def pyStrip (l : List Char) : List Char := pyRstrip (pyLstrip l)

/-- Python str.lower, restricted to the simple per-character case mapping. -/
def pyLower (l : List Char) : List Char := l.map Char.toLower

/-- Prepend a character to the first piece of a split result. -/
def consHead (c : Char) : List (List Char) → List (List Char)
  | [] => [[c]]
  | h :: t => (c :: h) :: t

/-- Python str.split(sep) for a one-character separator: keeps empty pieces,
and on the empty string returns one empty piece. -/
def splitOnChar (sep : Char) : List Char → List (List Char)
  | [] => [[]]
  | c :: rest =>
    if c = sep then [] :: splitOnChar sep rest
    else consHead c (splitOnChar sep rest)

/-- Python sep.join for sep = one space. -/
def joinSp : List (List Char) → List Char
  | [] => []
  | [p] => p
  | p :: q :: ps => p ++ ' ' :: joinSp (q :: ps)

/-- Python str.endswith t. -/
def pyEndsWith (t l : List Char) : Bool := List.isSuffixOf t l

/-- Status enum of email_system.py. -/
inductive Status where
  | draft
  | ready
  | sent
  | failed
  | invalid
deriving DecidableEq, Repr

/-- EmailAddress: the stored (already normalized) address string. -/
structure EmailAddress where
  address : List Char
deriving DecidableEq, Repr

namespace EmailAddress

/-- VALID_DOMAINS of EmailAddress. -/
def VALID_DOMAINS : List (List Char) := [".com".data, ".ru".data, ".net".data]

/-- EmailAddress._normalize: strip surrounding whitespace, lowercase. -/
def normalize (l : List Char) : List Char := pyLower (pyStrip l)

/-- EmailAddress._validate on the stored string: error when no at-sign,
or when no allowed domain suffix matches. -/
def validate (a : List Char) : Except String Unit :=
  if '@' ∉ a then Except.error "ValueError: must contain at-sign"
  else if ! VALID_DOMAINS.any (fun d => pyEndsWith d a) then
    Except.error "ValueError: bad domain"
  else Except.ok ()

/-- EmailAddress.__init__: normalize, then validate; store the result. -/
def construct (raw : List Char) : Except String EmailAddress :=
  match validate (normalize raw) with
  | Except.ok _ => Except.ok ⟨normalize raw⟩
  | Except.error e => Except.error e

/-- EmailAddress.masked: split the stored value on the at-sign and unpack
into exactly two parts (Python tuple unpacking raises ValueError when the
number of parts differs from two), then mask the local part. -/
def masked (a : EmailAddress) : Except String (List Char) :=
  match splitOnChar '@' a.address with
  | [local_part, domain] =>
      Except.ok (local_part.take 2 ++ "***".data ++ '@' :: domain)
  | _ => Except.error "ValueError: unpack"

end EmailAddress

/-- A member of a Python recipients list: either an EmailAddress instance
or any other Python object (isinstance check fails). -/
inductive RecipientItem where
  | addr (a : EmailAddress)
  | nonAddress
deriving DecidableEq, Repr

/-- isinstance(r, EmailAddress). -/
def isEmailAddress : RecipientItem → Bool
  | RecipientItem.addr _ => true
  | RecipientItem.nonAddress => false

/-- The shape of the recipients argument passed to the Email constructor:
a single EmailAddress, a Python list (of arbitrary elements), or any
other object (string, tuple, None, ...). -/
inductive RecipientsArg where
  | single (a : EmailAddress)
  | list (rs : List RecipientItem)
  | other
deriving DecidableEq, Repr

/-- Email dataclass.  date is an opaque timestamp. -/
structure Email where
  subject : List Char
  body : List Char
  sender : EmailAddress
  recipients : List RecipientItem
  date : Nat
  short_body : List Char
  status : Status
deriving DecidableEq, Repr

namespace Email

/-- Email.__post_init__ recipient normalization: a single EmailAddress is
wrapped in a one-element list, a list is copied as is (its elements are
not inspected), anything else raises TypeError. -/
def normalizeRecipients : RecipientsArg → Except String (List RecipientItem)
  | RecipientsArg.single a => Except.ok [RecipientItem.addr a]
  | RecipientsArg.list rs => Except.ok rs
  | RecipientsArg.other => Except.error "TypeError: recipients"

/-- Email construction: dataclass init (short_body defaults to empty,
status to draft) followed by __post_init__. -/
def construct (subject body : List Char) (sender : EmailAddress)
    (recipients : RecipientsArg) (date : Nat) : Except String Email :=
  match normalizeRecipients recipients with
  | Except.ok rs =>
      Except.ok { subject, body, sender, recipients := rs, date,
                  short_body := [], status := Status.draft }
  | Except.error e => Except.error e

/-- The surviving lines of Email._clean_text: split on line breaks, strip
each line, drop empty lines. -/
def cleanPieces (text : List Char) : List (List Char) :=
  ((splitOnChar '\n' text).map pyStrip).filter (fun l => !l.isEmpty)

/-- Email._clean_text: split on line breaks, strip each line, drop empty
lines, rejoin with single spaces. -/
def clean_text (text : List Char) : List Char :=
  joinSp (cleanPieces text)

/-- Email._add_short_body: acts on the already cleaned body field. -/
def add_short_body (e : Email) : Email :=
  if e.body.isEmpty then { e with short_body := [] }
  else
    let cleaned_body := clean_text e.body
    if cleaned_body.length ≤ 50 then { e with short_body := cleaned_body }
    else { e with short_body := cleaned_body.take 47 ++ "...".data }

/-- A Python object with no __bool__ or __len__ is always truthy; this is
the truth value of the sender field in Email.prepare. -/
def senderTruthy (_ : EmailAddress) : Bool := true

/-- Email.prepare: clean subject and body, derive short_body, then set
status to ready iff subject, body, sender and recipients are all truthy
and every recipient is an EmailAddress instance; invalid otherwise. -/
def prepare (e : Email) : Email :=
  let e1 := { e with subject := clean_text e.subject }
  let e2 := { e1 with body := clean_text e1.body }
  let e3 := add_short_body e2
  if !e3.subject.isEmpty && !e3.body.isEmpty && senderTruthy e3.sender
      && !e3.recipients.isEmpty && e3.recipients.all isEmailAddress then
    { e3 with status := Status.ready }
  else
    { e3 with status := Status.invalid }

end Email

/-- The loop body of EmailService.send_email: for the i-th recipient,
deep-copy the message, overwrite its recipients with the single recipient,
stamp the current time (clock i), and set status sent when the original
status is ready, failed otherwise. -/
def send_loop (email : Email) (clock : Nat → Nat) :
    Nat → List RecipientItem → List Email
  | _, [] => []
  | i, r :: rest =>
    let email_copy :=
      { email with
        recipients := [r],
        date := clock i,
        status := if email.status = Status.ready then Status.sent
                  else Status.failed }
    email_copy :: send_loop email clock (i + 1) rest

/-- EmailService.send_email.  The first component is the state of the
original message object after the call (the loop mutates only the fresh
deep copies, never the input); the second is the returned list. -/
def send_email (clock : Nat → Nat) (email : Email) : Email × List Email :=
  (email, send_loop email clock 0 email.recipients)

/-- Except.isOk as a plain Bool. -/
def exceptIsOk : Except String α → Bool
  | Except.ok _ => true
  | Except.error _ => false

/-- The short-body value as a function of the (already cleaned) body field. -/
def shortOf (body : List Char) : List Char :=
  if body.isEmpty then []
  else if (Email.clean_text body).length ≤ 50 then Email.clean_text body
  else (Email.clean_text body).take 47 ++ "...".data

/-- The status computed by Email.prepare as a function of the cleaned
subject, the cleaned body, the sender and the recipients. -/
def statusOf (subject body : List Char) (sender : EmailAddress)
    (rs : List RecipientItem) : Status :=
  if !subject.isEmpty && !body.isEmpty && Email.senderTruthy sender
      && !rs.isEmpty && rs.all isEmailAddress then Status.ready
  else Status.invalid

/-- A concrete freshly constructed message, still in draft status. -/
def draftEmailEx : Email :=
  { subject := "s".data, body := "b".data, sender := ⟨"a@b.com".data⟩,
    recipients := [RecipientItem.addr ⟨"r@c.ru".data⟩], date := 0,
    short_body := [], status := Status.draft }

/-- A concrete message whose body has 60 characters. -/
def longBodyEx : Email :=
  { subject := "s".data,
    body := "AAAAAAAAAAAAAAAAAAAAAAAAAAAAAAAAAAAAAAAAAAAAAAAAAAAAAAAAAAAA".data,
    sender := ⟨"a@b.com".data⟩,
    recipients := [RecipientItem.addr ⟨"r@c.ru".data⟩], date := 0,
    short_body := [], status := Status.draft }

/-- The message produced by the Email constructor for an empty recipient
list. -/
def emptyRecipientsEmail (s b : List Char) (snd : EmailAddress) (d : Nat) : Email :=
  { subject := s, body := b, sender := snd, recipients := [], date := d,
    short_body := [], status := Status.draft }


/-! Helper lemmas about the string primitives. -/

theorem consHead_ne_nil (c : Char) (P : List (List Char)) : consHead c P ≠ [] := by
  cases P <;> simp [consHead]

theorem splitOnChar_ne_nil (sep : Char) (l : List Char) : splitOnChar sep l ≠ [] := by
  induction l with
  | nil => simp [splitOnChar]
  | cons c rest ih =>
    simp only [splitOnChar]
    split
    · simp
    · exact consHead_ne_nil c _

theorem not_mem_of_mem_splitOnChar (sep : Char) :
    ∀ (l : List Char), ∀ q ∈ splitOnChar sep l, sep ∉ q := by
  intro l
  induction l with
  | nil =>
    intro q hq
    simp [splitOnChar] at hq
    simp [hq]
  | cons c rest ih =>
    intro q hq
    simp only [splitOnChar] at hq
    by_cases hc : c = sep
    · simp only [if_pos hc] at hq
      rcases List.mem_cons.mp hq with hq | hq
      · simp [hq]
      · exact ih q hq
    · simp only [if_neg hc] at hq
      rcases h : splitOnChar sep rest with _ | ⟨hd, tl⟩
      · exact absurd h (splitOnChar_ne_nil sep rest)
      · rw [h] at hq
        simp only [consHead] at hq
        rcases List.mem_cons.mp hq with hq | hq
        · have hhd : sep ∉ hd := ih hd (by rw [h]; exact List.mem_cons_self _ _)
          rw [hq]
          intro hmem
          rcases List.mem_cons.mp hmem with h1 | h1
          · exact hc h1.symm
          · exact hhd h1
        · exact ih q (by rw [h]; exact List.mem_cons_of_mem _ hq)

theorem splitOnChar_of_not_mem {sep : Char} :
    ∀ {l : List Char}, sep ∉ l → splitOnChar sep l = [l] := by
  intro l
  induction l with
  | nil => intro _; rfl
  | cons c rest ih =>
    intro h
    have hc : ¬(c = sep) := fun hh => h (by rw [hh]; exact List.mem_cons_self _ _)
    have hrest : sep ∉ rest := fun hh => h (List.mem_cons_of_mem _ hh)
    simp only [splitOnChar, if_neg hc, ih hrest, consHead]

theorem splitOnChar_append {sep : Char} :
    ∀ {a : List Char} (b : List Char), sep ∉ a →
      splitOnChar sep (a ++ sep :: b) = a :: splitOnChar sep b := by
  intro a
  induction a with
  | nil =>
    intro b _
    simp [splitOnChar]
  | cons c a' ih =>
    intro b h
    have hc : ¬(c = sep) := fun hh => h (by rw [hh]; exact List.mem_cons_self _ _)
    have ha' : sep ∉ a' := fun hh => h (List.mem_cons_of_mem _ hh)
    rw [List.cons_append]
    simp only [splitOnChar, if_neg hc, ih b ha', consHead]

theorem dropWhile_head_false {p : Char → Bool} {c : Char} {cs : List Char}
    (h : List.dropWhile p (c :: cs) = c :: cs) : p c = false := by
  cases hp : p c
  · rfl
  · rw [List.dropWhile_cons, hp] at h
    simp only [if_true] at h
    have := ((List.dropWhile_suffix (l := cs) p).sublist).length_le
    rw [h] at this
    simp at this

theorem dropWhile_eq_self_append {p : Char → Bool} {q : List Char}
    (hq : q ≠ []) (h : List.dropWhile p q = q) (r : List Char) :
    List.dropWhile p (q ++ r) = q ++ r := by
  cases q with
  | nil => exact absurd rfl hq
  | cons c cs =>
    have hc := dropWhile_head_false h
    simp [List.dropWhile_cons, hc]

theorem getLast?_false_of_rdropWhile_eq_self {p : Char → Bool} {l : List Char}
    (h : List.rdropWhile p l = l) : ∀ c ∈ l.getLast?, p c = false := by
  intro c hc
  cases hl : l with
  | nil => rw [hl] at hc; simp at hc
  | cons d ds =>
    have hne : l ≠ [] := by rw [hl]; simp
    have hlast := List.rdropWhile_eq_self_iff.mp h hne
    rw [List.getLast?_eq_getLast_of_ne_nil hne] at hc
    have hceq : c = l.getLast hne := by
      have := hc
      simp only [Option.mem_def, Option.some.injEq] at this
      exact this.symm
    rw [hceq]
    cases hp : p (l.getLast hne)
    · rfl
    · exact absurd hp (by simpa using hlast)

theorem rdropWhile_eq_self_getLast? {p : Char → Bool} {l : List Char}
    (h : ∀ c ∈ l.getLast?, p c = false) : List.rdropWhile p l = l := by
  apply List.rdropWhile_eq_self_iff.mpr
  intro hl
  have := h (l.getLast hl) (by rw [List.getLast?_eq_getLast_of_ne_nil hl]; rfl)
  simp [this]

theorem dropWhile_eq_self_head {p : Char → Bool} {l : List Char}
    (h : ∀ c ∈ l.head?, p c = false) : List.dropWhile p l = l := by
  cases l with
  | nil => rfl
  | cons c cs =>
    have hc := h c (by rfl)
    simp [List.dropWhile_cons, hc]

theorem pyLstrip_pyStrip (l : List Char) :
    List.dropWhile pyIsSpace (pyStrip l) = pyStrip l := by
  unfold pyStrip pyRstrip pyLstrip
  obtain ⟨t, ht⟩ := List.rdropWhile_prefix pyIsSpace (List.dropWhile pyIsSpace l)
  cases hx : List.rdropWhile pyIsSpace (List.dropWhile pyIsSpace l) with
  | nil => rfl
  | cons c cs =>
    have hyy : List.dropWhile pyIsSpace (List.dropWhile pyIsSpace l)
        = List.dropWhile pyIsSpace l := List.dropWhile_idempotent pyIsSpace l
    rw [hx] at ht
    rw [← ht, List.cons_append] at hyy
    have hc : pyIsSpace c = false := dropWhile_head_false hyy
    simp [List.dropWhile_cons, hc]

theorem pyRstrip_pyStrip (l : List Char) :
    List.rdropWhile pyIsSpace (pyStrip l) = pyStrip l := by
  unfold pyStrip pyRstrip
  exact List.rdropWhile_idempotent pyIsSpace (pyLstrip l)

theorem pyStrip_idem (l : List Char) : pyStrip (pyStrip l) = pyStrip l := by
  show pyRstrip (pyLstrip (pyStrip l)) = pyStrip l
  unfold pyRstrip pyLstrip
  rw [pyLstrip_pyStrip l]
  exact pyRstrip_pyStrip l

theorem mem_of_mem_pyStrip {c : Char} {l : List Char} (h : c ∈ pyStrip l) : c ∈ l := by
  unfold pyStrip pyRstrip pyLstrip at h
  have h1 : c ∈ List.dropWhile pyIsSpace l :=
    (List.rdropWhile_prefix pyIsSpace _).sublist.subset h
  exact (List.dropWhile_suffix pyIsSpace).sublist.subset h1

theorem joinSp_ne_nil {q : List Char} (ps : List (List Char)) (hq : q ≠ []) :
    joinSp (q :: ps) ≠ [] := by
  cases ps with
  | nil => exact hq
  | cons q2 ps' =>
    simp only [joinSp]
    intro hcontra
    rcases List.append_eq_nil.mp hcontra with ⟨_, h2⟩
    exact List.cons_ne_nil _ _ h2

theorem nl_not_mem_joinSp :
    ∀ (P : List (List Char)), (∀ q ∈ P, '\n' ∉ q) → '\n' ∉ joinSp P := by
  intro P
  induction P with
  | nil => intro _; simp [joinSp]
  | cons q ps ih =>
    intro h
    cases ps with
    | nil => exact h q (List.mem_cons_self _ _)
    | cons q2 ps' =>
      simp only [joinSp]
      intro hmem
      rcases List.mem_append.mp hmem with h1 | h1
      · exact h q (List.mem_cons_self _ _) h1
      · rcases List.mem_cons.mp h1 with h2 | h2
        · exact absurd h2 (by decide)
        · exact ih (fun r hr => h r (List.mem_cons_of_mem _ hr)) h2

theorem lstrip_joinSp (P : List (List Char))
    (h : ∀ q ∈ P, q ≠ [] ∧ List.dropWhile pyIsSpace q = q) :
    List.dropWhile pyIsSpace (joinSp P) = joinSp P := by
  cases P with
  | nil => rfl
  | cons q ps =>
    obtain ⟨hq, hfix⟩ := h q (List.mem_cons_self _ _)
    cases ps with
    | nil => exact hfix
    | cons q2 ps' =>
      simp only [joinSp]
      exact dropWhile_eq_self_append hq hfix _

theorem rstrip_joinSp :
    ∀ (P : List (List Char)), (∀ q ∈ P, q ≠ [] ∧ List.rdropWhile pyIsSpace q = q) →
      List.rdropWhile pyIsSpace (joinSp P) = joinSp P := by
  intro P
  induction P with
  | nil => intro _; rfl
  | cons q ps ih =>
    intro h
    cases ps with
    | nil => exact (h q (List.mem_cons_self _ _)).2
    | cons q2 ps' =>
      simp only [joinSp]
      have hrest : ∀ r ∈ q2 :: ps', r ≠ [] ∧ List.rdropWhile pyIsSpace r = r :=
        fun r hr => h r (List.mem_cons_of_mem _ hr)
      have hj : List.rdropWhile pyIsSpace (joinSp (q2 :: ps')) = joinSp (q2 :: ps') := by
        simpa [joinSp] using ih hrest
      have hjne : joinSp (q2 :: ps') ≠ [] :=
        joinSp_ne_nil ps' (hrest q2 (List.mem_cons_self _ _)).1
      apply rdropWhile_eq_self_getLast?
      intro c hc
      rw [List.getLast?_append_of_ne_nil _ (List.cons_ne_nil ' ' _)] at hc
      have hc2 : c ∈ (joinSp (q2 :: ps')).getLast? := by
        have : (' ' :: joinSp (q2 :: ps')) = [' '] ++ joinSp (q2 :: ps') := rfl
        rw [this, List.getLast?_append_of_ne_nil _ hjne] at hc
        exact hc
      exact getLast?_false_of_rdropWhile_eq_self hj c hc2

theorem cleanPieces_good (t : List Char) :
    ∀ q ∈ Email.cleanPieces t,
      q ≠ [] ∧ '\n' ∉ q ∧ List.dropWhile pyIsSpace q = q
        ∧ List.rdropWhile pyIsSpace q = q := by
  intro q hq
  unfold Email.cleanPieces at hq
  obtain ⟨hq1, hq2⟩ := List.mem_filter.mp hq
  obtain ⟨r, hr, hqr⟩ := List.mem_map.mp hq1
  have hnl : '\n' ∉ r := not_mem_of_mem_splitOnChar '\n' t r hr
  refine ⟨?_, ?_, ?_, ?_⟩
  · intro hnil
    rw [hnil] at hq2
    simp at hq2
  · intro hmem
    rw [← hqr] at hmem
    exact hnl (mem_of_mem_pyStrip hmem)
  · rw [← hqr]; exact pyLstrip_pyStrip r
  · rw [← hqr]; exact pyRstrip_pyStrip r

theorem clean_text_nil : Email.clean_text [] = [] := by decide

theorem clean_text_idem (t : List Char) :
    Email.clean_text (Email.clean_text t) = Email.clean_text t := by
  rcases hP : Email.cleanPieces t with _ | ⟨q, ps⟩
  · have h1 : Email.clean_text t = [] := by
      rw [Email.clean_text, hP]; rfl
    rw [h1, clean_text_nil]
  · have hg : ∀ r ∈ q :: ps,
        r ≠ [] ∧ '\n' ∉ r ∧ List.dropWhile pyIsSpace r = r
          ∧ List.rdropWhile pyIsSpace r = r := by
      rw [← hP]; exact cleanPieces_good t
    have hs : Email.clean_text t = joinSp (q :: ps) := by
      rw [Email.clean_text, hP]
    set s := Email.clean_text t with hsdef
    have hnl : '\n' ∉ s := by
      rw [hs]
      exact nl_not_mem_joinSp _ (fun r hr => (hg r hr).2.1)
    have hlfix : List.dropWhile pyIsSpace s = s := by
      rw [hs]
      exact lstrip_joinSp _ (fun r hr => ⟨(hg r hr).1, (hg r hr).2.2.1⟩)
    have hrfix : List.rdropWhile pyIsSpace s = s := by
      rw [hs]
      exact rstrip_joinSp _ (fun r hr => ⟨(hg r hr).1, (hg r hr).2.2.2⟩)
    have hstrip : pyStrip s = s := by
      unfold pyStrip pyRstrip pyLstrip
      rw [hlfix, hrfix]
    have hne : s ≠ [] := by
      rw [hs]
      exact joinSp_ne_nil ps (hg q (List.mem_cons_self _ _)).1
    show Email.clean_text s = s
    rw [Email.clean_text, Email.cleanPieces, splitOnChar_of_not_mem hnl]
    simp only [List.map_cons, List.map_nil, hstrip, List.filter]
    have hje : (!s.isEmpty) = true := by
      cases hcase : s with
      | nil => exact absurd hcase hne
      | cons a as => simp
    rw [hje]
    rfl

theorem add_short_body_eq (e : Email) :
    Email.add_short_body e = { e with short_body := shortOf e.body } := by
  simp only [Email.add_short_body, shortOf]
  split
  · rfl
  · split <;> rfl

theorem prepare_eq (e : Email) :
    Email.prepare e =
      { subject := Email.clean_text e.subject,
        body := Email.clean_text e.body,
        sender := e.sender,
        recipients := e.recipients,
        date := e.date,
        short_body := shortOf (Email.clean_text e.body),
        status := statusOf (Email.clean_text e.subject) (Email.clean_text e.body)
                    e.sender e.recipients } := by
  simp only [Email.prepare, add_short_body_eq, statusOf]
  split <;> rfl

theorem send_loop_map_status (e : Email) (clock : Nat → Nat) :
    ∀ (rs : List RecipientItem) (i : Nat),
      (send_loop e clock i rs).map Email.status
        = rs.map (fun _ => if e.status = Status.ready then Status.sent
                           else Status.failed) := by
  intro rs
  induction rs with
  | nil => intro i; rfl
  | cons r rest ih =>
    intro i
    simp only [send_loop, List.map_cons, ih (i + 1)]

theorem send_loop_map_recipients (e : Email) (clock : Nat → Nat) :
    ∀ (rs : List RecipientItem) (i : Nat),
      (send_loop e clock i rs).map Email.recipients = rs.map (fun r => [r]) := by
  intro rs
  induction rs with
  | nil => intro i; rfl
  | cons r rest ih =>
    intro i
    simp only [send_loop, List.map_cons, ih (i + 1)]

theorem send_loop_map_content (e : Email) (clock : Nat → Nat) :
    ∀ (rs : List RecipientItem) (i : Nat),
      (send_loop e clock i rs).map
          (fun c => (c.subject, c.body, c.sender, c.short_body))
        = rs.map (fun _ => (e.subject, e.body, e.sender, e.short_body)) := by
  intro rs
  induction rs with
  | nil => intro i; rfl
  | cons r rest ih =>
    intro i
    simp only [send_loop, List.map_cons, ih (i + 1)]

theorem send_loop_length (e : Email) (clock : Nat → Nat) :
    ∀ (rs : List RecipientItem) (i : Nat),
      (send_loop e clock i rs).length = rs.length := by
  intro rs
  induction rs with
  | nil => intro i; rfl
  | cons r rest ih =>
    intro i
    simp only [send_loop, List.length_cons, ih (i + 1)]

theorem send_loop_status_mem (e : Email) (clock : Nat → Nat) :
    ∀ (rs : List RecipientItem) (i : Nat), ∀ c ∈ send_loop e clock i rs,
      c.status = if e.status = Status.ready then Status.sent else Status.failed := by
  intro rs
  induction rs with
  | nil => intro i c hc; simp [send_loop] at hc
  | cons r rest ih =>
    intro i c hc
    simp only [send_loop] at hc
    rcases List.mem_cons.mp hc with h | h
    · rw [h]
    · exact ih (i + 1) c h

theorem pyEndsWith_iff {t l : List Char} : pyEndsWith t l = true ↔ t <:+ l :=
  List.isSuffixOf_iff_suffix

theorem validate_ok_iff (a : List Char) :
    exceptIsOk (EmailAddress.validate a) = true ↔
      ('@' ∈ a ∧ ∃ d ∈ EmailAddress.VALID_DOMAINS, d <:+ a) := by
  unfold EmailAddress.validate
  by_cases hat : '@' ∈ a
  · by_cases hany :
        EmailAddress.VALID_DOMAINS.any (fun d => pyEndsWith d a) = true
    · rw [if_neg (not_not_intro hat), if_neg (by simp [hany])]
      constructor
      · intro _
        refine ⟨hat, ?_⟩
        rw [List.any_eq_true] at hany
        obtain ⟨d, hd, hsuf⟩ := hany
        exact ⟨d, hd, pyEndsWith_iff.mp hsuf⟩
      · intro _; rfl
    · rw [if_neg (not_not_intro hat),
        if_pos (by rw [Bool.eq_false_iff.mpr hany]; rfl)]
      constructor
      · intro h; simp [exceptIsOk] at h
      · rintro ⟨-, d, hd, hsuf⟩
        exact absurd
          (List.any_eq_true.mpr ⟨d, hd, (@pyEndsWith_iff d a).mpr hsuf⟩) hany
  · rw [if_pos hat]
    constructor
    · intro h; simp [exceptIsOk] at h
    · intro h; exact absurd h.1 hat

theorem mk_ok_address {s : List Char} {a : EmailAddress}
    (h : EmailAddress.construct s = Except.ok a) :
    a.address = EmailAddress.normalize s := by
  unfold EmailAddress.construct at h
  rcases hv : EmailAddress.validate (EmailAddress.normalize s) with msg | u <;>
    rw [hv] at h
  · cases h
  · cases h; rfl

theorem mk_isOk_eq (s : List Char) :
    exceptIsOk (EmailAddress.construct s)
      = exceptIsOk (EmailAddress.validate (EmailAddress.normalize s)) := by
  unfold EmailAddress.construct
  rcases hv : EmailAddress.validate (EmailAddress.normalize s) with msg | u <;>
    simp [exceptIsOk]

/-- C1 counterexample: the constructor accepts a string with two at-signs,
but masked then raises a ValueError (tuple unpacking of a three-element
split), so masked does not return the masked form for every accepted
string. -/
theorem masked_multiple_at_counterexample :
    EmailAddress.construct "a@b@c.com".data = Except.ok ⟨"a@b@c.com".data⟩ ∧
    exceptIsOk (EmailAddress.masked ⟨"a@b@c.com".data⟩) = false :=
  ⟨by rfl, by rfl⟩

/-- C1 (amended): for every successfully constructed Address whose stored
value contains exactly one at-sign, masked returns the first two characters
of the local part, the literal stars, the at-sign and the domain part
(short local parts yield just the available characters); when the stored
value contains more than one at-sign, masked raises a ValueError instead. -/
theorem masked_spec_amended (s : List Char) (a : EmailAddress)
    (_hok : EmailAddress.construct s = Except.ok a) :
    (∀ loc dom : List Char, a.address = loc ++ '@' :: dom →
        '@' ∉ loc → '@' ∉ dom →
        EmailAddress.masked a
          = Except.ok (loc.take 2 ++ "***".data ++ '@' :: dom)) ∧
    (∀ l1 l2 l3 : List Char, a.address = l1 ++ '@' :: (l2 ++ '@' :: l3) →
        '@' ∉ l1 → '@' ∉ l2 →
        exceptIsOk (EmailAddress.masked a) = false) := by
  constructor
  · intro loc dom hval hloc hdom
    unfold EmailAddress.masked
    rw [hval, splitOnChar_append dom hloc, splitOnChar_of_not_mem hdom]
  · intro l1 l2 l3 hval h1 h2
    unfold EmailAddress.masked
    rw [hval, splitOnChar_append _ h1, splitOnChar_append _ h2]
    rcases hsp : splitOnChar '@' l3 with _ | ⟨hd, tl⟩
    · exact absurd hsp (splitOnChar_ne_nil '@' l3)
    · rfl

/-- C1 amended applied at concrete constructed addresses. -/
theorem masked_spec_amended_applied :
    EmailAddress.masked ⟨"ab@cd.com".data⟩
        = Except.ok ("ab".data.take 2 ++ "***".data ++ '@' :: "cd.com".data) ∧
    exceptIsOk (EmailAddress.masked ⟨"xy@z@w.ru".data⟩) = false := by
  constructor
  · exact (masked_spec_amended "ab@cd.com".data ⟨"ab@cd.com".data⟩ (by rfl)).1
      "ab".data "cd.com".data (by rfl) (by decide) (by decide)
  · exact (masked_spec_amended "xy@z@w.ru".data ⟨"xy@z@w.ru".data⟩ (by rfl)).2
      "xy".data "z".data "w.ru".data (by rfl) (by decide) (by decide)

/-- C2 counterexample: a Python list whose element is not an EmailAddress
is accepted by the Email constructor without any error, although the claim
requires a type error for recipients that are not a single Address nor a
sequence of Address. -/
theorem recipients_list_unchecked_counterexample :
    exceptIsOk (Email.construct "s".data "b".data ⟨"a@b.com".data⟩
        (RecipientsArg.list [RecipientItem.nonAddress]) 0) = true := by rfl

/-- C2 (amended): Message construction raises InvalidRecipients exactly
when the recipients argument is neither an EmailAddress nor a Python list;
the elements of a list are not inspected at construction time (a list
containing non-Address values is accepted, and a non-list sequence of
Addresses is rejected). -/
theorem recipients_shape_amended (subject body : List Char)
    (snd : EmailAddress) (r : RecipientsArg) (d : Nat) :
    exceptIsOk (Email.construct subject body snd r d) = true
      ↔ r ≠ RecipientsArg.other := by
  cases r <;> simp [Email.construct, Email.normalizeRecipients, exceptIsOk]

/-- C2 amended applied at a concrete accepted shape. -/
theorem recipients_shape_amended_applied :
    exceptIsOk (Email.construct "s".data "b".data ⟨"a@b.com".data⟩
        (RecipientsArg.single ⟨"r@c.ru".data⟩) 0) = true :=
  (recipients_shape_amended "s".data "b".data ⟨"a@b.com".data⟩
    (RecipientsArg.single ⟨"r@c.ru".data⟩) 0).mpr (by decide)

/-- C3 counterexample: a freshly constructed message still has status
draft, and sending it without prepare produces a copy with status failed:
the transition draft to failed via send is missing from the claimed list
of possible transitions. -/
theorem draft_send_failed_counterexample :
    Email.construct "s".data "b".data ⟨"a@b.com".data⟩
        (RecipientsArg.single ⟨"r@c.ru".data⟩) 0 = Except.ok draftEmailEx ∧
    draftEmailEx.status = Status.draft ∧
    (send_email (fun _ => 0) draftEmailEx).2.map Email.status
      = [Status.failed] :=
  ⟨by rfl, by rfl, by rfl⟩

/-- C3 (amended): construction always yields status draft; prepare always
results in ready or invalid; and send gives every per-recipient copy the
status sent when the original status is ready and failed for every other
original status, so besides the claimed transitions the transition draft
to failed (sending an unprepared message) also occurs. -/
theorem status_transitions_amended :
    (∀ (s b : List Char) (snd : EmailAddress) (r : RecipientsArg) (d : Nat)
        (e : Email), Email.construct s b snd r d = Except.ok e →
          e.status = Status.draft) ∧
    (∀ e : Email, (Email.prepare e).status = Status.ready ∨
        (Email.prepare e).status = Status.invalid) ∧
    (∀ (clock : Nat → Nat) (e : Email), ∀ c ∈ (send_email clock e).2,
        c.status = if e.status = Status.ready then Status.sent
                   else Status.failed) := by
  refine ⟨?_, ?_, ?_⟩
  · intro s b snd r d e h
    unfold Email.construct at h
    rcases hr : Email.normalizeRecipients r with msg | rs <;> rw [hr] at h
    · cases h
    · cases h; rfl
  · intro e
    rw [prepare_eq]
    unfold statusOf
    split
    · left; rfl
    · right; rfl
  · intro clock e c hc
    exact send_loop_status_mem e clock e.recipients 0 c hc

/-- C3 amended applied at a concrete draft message. -/
theorem status_transitions_amended_applied :
    draftEmailEx.status = Status.draft ∧
    ((Email.prepare draftEmailEx).status = Status.ready ∨
      (Email.prepare draftEmailEx).status = Status.invalid) ∧
    ({ draftEmailEx with
        recipients := [RecipientItem.addr ⟨"r@c.ru".data⟩],
        date := 0,
        status := Status.failed } : Email).status
      = if draftEmailEx.status = Status.ready then Status.sent
        else Status.failed := by
  refine ⟨?_, ?_, ?_⟩
  · exact status_transitions_amended.1 "s".data "b".data ⟨"a@b.com".data⟩
      (RecipientsArg.single ⟨"r@c.ru".data⟩) 0 draftEmailEx (by rfl)
  · exact status_transitions_amended.2.1 draftEmailEx
  · exact status_transitions_amended.2.2 (fun _ => 0) draftEmailEx _ (by decide)

/-- C4: Address construction normalizes first (trim surrounding whitespace,
lowercase the whole string) and stores the normalized value on success; it
fails exactly when the normalized string contains no at-sign or does not
end with one of the allowed domain suffixes. -/
theorem address_construction_spec (s : List Char) :
    (∀ a : EmailAddress, EmailAddress.construct s = Except.ok a →
        a.address = pyLower (pyStrip s)) ∧
    (exceptIsOk (EmailAddress.construct s) = false ↔
      ('@' ∉ EmailAddress.normalize s ∨
        ∀ d ∈ EmailAddress.VALID_DOMAINS, ¬ d <:+ EmailAddress.normalize s)) := by
  constructor
  · intro a h
    rw [mk_ok_address h]
    rfl
  · rw [mk_isOk_eq]
    have hv := validate_ok_iff (EmailAddress.normalize s)
    constructor
    · intro h
      have hno : ¬ (exceptIsOk (EmailAddress.validate (EmailAddress.normalize s))
          = true) := by rw [h]; simp
      have hnp := (not_congr hv).mp hno
      rcases not_and_or.mp hnp with h1 | h1
      · exact Or.inl h1
      · refine Or.inr ?_
        intro d hd hsuf
        exact h1 ⟨d, hd, hsuf⟩
    · intro h
      cases hok : exceptIsOk (EmailAddress.validate (EmailAddress.normalize s)) with
      | false => rfl
      | true =>
        obtain ⟨hat, d, hd, hsuf⟩ := hv.mp hok
        rcases h with h1 | h1
        · exact absurd hat h1
        · exact absurd hsuf (h1 d hd)

/-- C4 applied at a concrete raw string with whitespace and mixed case. -/
theorem address_construction_spec_applied :
    (⟨"a@b.com".data⟩ : EmailAddress).address
      = pyLower (pyStrip "  A@B.Com ".data) :=
  (address_construction_spec "  A@B.Com ".data).1 ⟨"a@b.com".data⟩ (by rfl)

/-- C5: every output copy of send gets its status from the original
message status alone: sent when the original is ready, failed for any
other original status; send always returns and never raises. -/
theorem send_status_policy (clock : Nat → Nat) (e : Email) :
    (send_email clock e).2.map Email.status
      = e.recipients.map
          (fun _ => if e.status = Status.ready then Status.sent
                    else Status.failed) :=
  send_loop_map_status e clock e.recipients 0

/-- C6: send never mutates its input; the state of the original message
after the call (first component of the embedding of send_email) is the
input itself, so status, date and recipients are all unchanged. -/
theorem send_preserves_input (clock : Nat → Nat) (e : Email) :
    (send_email clock e).1 = e ∧
    (send_email clock e).1.status = e.status ∧
    (send_email clock e).1.date = e.date ∧
    (send_email clock e).1.recipients = e.recipients :=
  ⟨rfl, rfl, rfl, rfl⟩

/-- C7: send returns one copy per recipient, in the input recipient order,
the i-th copy holding exactly the single i-th recipient, and each copy
carrying the original subject, body, sender and short body (the embedding
is by value, reflecting the deep-copy independence of the outputs). -/
theorem send_fanout_spec (clock : Nat → Nat) (e : Email) :
    (send_email clock e).2.length = e.recipients.length ∧
    (send_email clock e).2.map Email.recipients
      = e.recipients.map (fun r => [r]) ∧
    (send_email clock e).2.map
        (fun c => (c.subject, c.body, c.sender, c.short_body))
      = e.recipients.map
          (fun _ => (e.subject, e.body, e.sender, e.short_body)) :=
  ⟨send_loop_length e clock e.recipients 0,
   send_loop_map_recipients e clock e.recipients 0,
   send_loop_map_content e clock e.recipients 0⟩

/-- C8: after prepare the short body is empty when the cleaned body is
empty, the cleaned body verbatim when its length is at most 50, and the
first 47 characters of the cleaned body followed by three dots (total
length exactly 50) otherwise. -/
theorem short_body_spec (e : Email) :
    (Email.clean_text e.body = [] → (Email.prepare e).short_body = []) ∧
    ((Email.clean_text e.body).length ≤ 50 →
        (Email.prepare e).short_body = Email.clean_text e.body) ∧
    (50 < (Email.clean_text e.body).length →
        (Email.prepare e).short_body
            = (Email.clean_text e.body).take 47 ++ "...".data ∧
        (Email.prepare e).short_body.length = 50) := by
  have hsb : (Email.prepare e).short_body
      = shortOf (Email.clean_text e.body) := by rw [prepare_eq]
  have hidem := clean_text_idem e.body
  refine ⟨?_, ?_, ?_⟩
  · intro h
    rw [hsb, h]
    rfl
  · intro h
    rw [hsb]
    unfold shortOf
    cases hemp : (Email.clean_text e.body).isEmpty with
    | true =>
      rw [if_pos rfl]
      exact (List.isEmpty_iff.mp hemp).symm
    | false =>
      rw [if_neg Bool.false_ne_true, hidem, if_pos h]
  · intro h
    have hemp : (Email.clean_text e.body).isEmpty = false := by
      cases hc : Email.clean_text e.body with
      | nil => rw [hc] at h; simp at h
      | cons x xs => rfl
    rw [hsb]
    unfold shortOf
    rw [if_neg (by rw [hemp]; exact Bool.false_ne_true), hidem,
      if_neg (not_le.mpr h)]
    refine ⟨rfl, ?_⟩
    rw [List.length_append, List.length_take]
    have h47 : min 47 (Email.clean_text e.body).length = 47 :=
      min_eq_left (by omega)
    rw [h47]
    rfl

/-- C8 applied at a concrete message with a 60-character body. -/
theorem short_body_spec_applied :
    (Email.prepare longBodyEx).short_body
        = (Email.clean_text longBodyEx.body).take 47 ++ "...".data ∧
    (Email.prepare longBodyEx).short_body.length = 50 :=
  (short_body_spec longBodyEx).2.2 (by decide)

/-- C9: prepare is idempotent: preparing an already prepared message
leaves subject, body, short body and status unchanged. -/
theorem prepare_idempotent_spec (e : Email) :
    (Email.prepare (Email.prepare e)).subject = (Email.prepare e).subject ∧
    (Email.prepare (Email.prepare e)).body = (Email.prepare e).body ∧
    (Email.prepare (Email.prepare e)).short_body
      = (Email.prepare e).short_body ∧
    (Email.prepare (Email.prepare e)).status = (Email.prepare e).status := by
  simp only [prepare_eq, clean_text_idem]
  exact ⟨trivial, trivial, trivial, trivial⟩

/-- C10: the Email constructor accepts an empty recipient list without
error; sending the resulting message returns the empty list and raises no
error, and preparing it sets its status to invalid. -/
theorem empty_recipients_accepted (s b : List Char) (snd : EmailAddress)
    (d : Nat) (clock : Nat → Nat) :
    Email.construct s b snd (RecipientsArg.list []) d
        = Except.ok (emptyRecipientsEmail s b snd d) ∧
    (send_email clock (emptyRecipientsEmail s b snd d)).2 = [] ∧
    (Email.prepare (emptyRecipientsEmail s b snd d)).status
      = Status.invalid := by
  refine ⟨rfl, rfl, ?_⟩
  rw [prepare_eq]
  simp [statusOf, emptyRecipientsEmail]
